import Mathlib

/-!
Verification of the merge-join core of `rust-fast-join` against its
natural-language specification.

The embedding is shallow: each Rust item of `src/lib.rs` / `src/splitline.rs`
is translated into an executable Lean definition with the same name where
possible.  Machine strings are modelled as lists of characters (`Str`);
Rust's byte-lexicographic `str::cmp` agrees with code-point order, which is
what `cmpStr` implements.  A Rust `panic!` (including an out-of-bounds index)
is modelled by `Option`: `none` is the aborted computation.  I/O is factored
out exactly as the spec's interface section prescribes: a `JoinFile` holds
the not-yet-consumed input lines as a pure list, and emitted rows are
collected as a list of `OutEvent` values instead of being pushed through the
`output_fn` sink (the source joins the column values with the configured
delimiter and hands the line to the sink; the column values themselves are
what the events record).
-/

/-- A text string, as a list of characters.  Rust field values and lines. -/
abbrev Str := List Char

/-- Character comparison, `a.cmp(b)` on Rust chars/bytes (total order on
code points; UTF-8 byte order and code-point order coincide). -/
def cmpChar (a b : Char) : Ordering :=
  if a < b then Ordering.lt else if a = b then Ordering.eq else Ordering.gt

/-- String comparison: Rust's `str::cmp`, lexicographic. -/
def cmpStr : Str → Str → Ordering
  | [], [] => Ordering.eq
  | [], _ :: _ => Ordering.lt
  | _ :: _, [] => Ordering.gt
  | a :: s, b :: t =>
    match cmpChar a b with
    | Ordering.eq => cmpStr s t
    | o => o

/-! ## Field View: `splitline.rs`

The source stores each field as a raw pointer into the backing line.  A raw
pointer is base-address + offset, so the embedding stores the recoverable
content of the pointer: the `(start, length)` offset pair into the owning
line.  `SplitLine::clone` recomputes exactly these offsets
(`offset = s.as_ptr() - origstart`) and re-slices the copied line. -/

/-- Offsets of the pieces `line.split(delim)` produces, Rust semantics:
split at every occurrence of the delimiter; an empty line yields one empty
piece (`"".split(d)` is `[""]` in Rust). -/
def splitOffsetsAux (delim : Char) : Str → Nat → Nat → List (Nat × Nat)
  | [], start, pos => [(start, pos - start)]
  | c :: cs, start, pos =>
    if c = delim then (start, pos - start) :: splitOffsetsAux delim cs (pos + 1) (pos + 1)
    else splitOffsetsAux delim cs start (pos + 1)

/-- Field offsets of a line: `line.split(delim).map(|x| x as *const str)`. -/
def splitOffsets (line : Str) (delim : Char) : List (Nat × Nat) :=
  splitOffsetsAux delim line 0 0

/-- `struct SplitLine`: the backing line, the fields as offset pairs into
it (the content of the raw `*const str` pointers), and the 0-indexed key
field list. -/
structure SplitLine where
  line : Str
  fields : List (Nat × Nat)
  key_fields : List Nat
  deriving Repr, DecidableEq

/-- The struct literal `SplitLine { line, fields, key_fields }` as built by
`SplitLine::new`, without the panic check.  Used to express the placeholder
rows the source writes down before the check rejects them (see the C9
theorem), and states at program points that are only reachable past that
defect. -/
def mkSplitLineU (line : Str) (delim : Char) (key_fields : List Nat) : SplitLine :=
  { line := line, fields := splitOffsets line delim, key_fields := key_fields }

/-- `SplitLine::new`: splits the line, then panics (`none`) if the key
field list is empty. -/
def SplitLine.new (line : Str) (delim : Char) (key_fields : List Nat) : Option SplitLine :=
  if key_fields.isEmpty then none
  else some (mkSplitLineU line delim key_fields)

/-- Number of fields, `fn num_fields`. -/
def SplitLine.num_fields (s : SplitLine) : Nat := s.fields.length

/-- Dereference one field pointer: slice the owning line at the offsets. -/
def derefField (line : Str) (p : Nat × Nat) : Str := (line.drop p.1).take p.2

/-- `fn field`, with the out-of-bounds panic made explicit. -/
def SplitLine.fieldOpt (s : SplitLine) (i : Nat) : Option Str :=
  (s.fields.get? i).map (derefField s.line)

/-- `fn field`, total form.  The source indexes the field vector directly and
panics out of bounds; every use below is either bounds-guarded (as
`do_output` is) or quantified over in-bounds indices. -/
def SplitLine.field (s : SplitLine) (i : Nat) : Str := (s.fieldOpt i).getD []

/-- Collect an `Option` result for every list element (the panic of any
element aborts the whole computation). -/
def optMap {α β : Type} (f : α → Option β) : List α → Option (List β)
  | [] => some []
  | x :: xs =>
    match f x, optMap f xs with
    | some y, some ys => some (y :: ys)
    | _, _ => none

/-- `fn keys`: the field values at the key indices, in order.  Indexing a
missing field panics in the source. -/
def SplitLine.keys (s : SplitLine) : Option (List Str) :=
  optMap s.fieldOpt s.key_fields

/-- `fn fields_except_keys`: every field whose index is not a key index. -/
def SplitLine.fields_except_keys (s : SplitLine) : List Str :=
  s.fields.enum.filterMap fun ip =>
    if s.key_fields.contains ip.1 then none else some (derefField s.line ip.2)

/-- `impl Clone for SplitLine`: clone the backing line (an equal copy),
recompute each field pointer from its offset (`ptr - origstart` recovers
`start`, `s.len()` recovers the length) against the copied line, and clone
the key list. -/
def SplitLine.clone (s : SplitLine) : SplitLine :=
  { line := s.line
    fields := s.fields.map fun p => (p.1, p.2)
    key_fields := s.key_fields }

/-! ## Key comparison: `fn compare_keys` (lib.rs 275-284)

The loop runs over the indices of the *left* list and indexes the right
list at each of them, so a longer left list panics (`none`) when the right
runs out, while a left list that is a strict prefix of the right exhausts
the loop with `result` still `Equal`. -/

/-- `fn compare_keys`. -/
def compare_keys : List Str → List Str → Option Ordering
  | [], _ => some Ordering.eq
  | _ :: _, [] => none
  | x :: xs, y :: ys =>
    match cmpStr x y with
    | Ordering.eq => compare_keys xs ys
    | o => some o

-- sanity examples (field splitting and comparison)
example : splitOffsets ('a' :: '\t' :: 'b' :: []) '\t' = [(0, 1), (2, 1)] := by decide
example : splitOffsets [] '\t' = [(0, 0)] := by decide
example : compare_keys [['a']] [['a'], ['b']] = some Ordering.eq := by decide
example : compare_keys [['a'], ['b']] [['a']] = none := by decide

/-! ## Configuration (lib.rs 10-48) -/

/-- `enum KeyField`: a key selector, resolved (`Indexed`) or named. -/
inductive KeyField where
  | Indexed (n : Nat)
  | Named (s : Str)
  deriving Repr, DecidableEq

/-- `struct JoinFileConfig`.  The `filename` is the external collaborator
that yields the line source and is replaced by the pure line list a
`JoinFile` carries. -/
structure JoinFileConfig where
  all : Bool
  key_fields : List KeyField
  missing : Str
  deriving Repr, DecidableEq

/-- `enum OutputField`. -/
inductive OutputField where
  | JoinField
  | FileField (file : Nat) (field : Nat)
  | NamedFileField (file : Nat) (field : Str)
  deriving Repr, DecidableEq

/-- `enum OutputOrder`. -/
inductive OutputOrder where
  | GnuDefault
  | Auto
  | Explicit (fields : List OutputField)
  deriving Repr, DecidableEq

/-- `struct JoinConfig`.  `output_fn` and `delim` belong to the external
line sink (the sink receives the event's column values joined with the
delimiter); `has_header` is false in every claim, and the header path is
not part of any claim, so it is not carried here. -/
structure JoinConfig where
  left : JoinFileConfig
  right : JoinFileConfig
  output : OutputOrder
  deriving Repr, DecidableEq

/-! ## Stream Cursor: `struct JoinFile` (lib.rs 50-150)

`lines` is the remaining input of the wrapped line iterator.  The three
index fields `row_idx`, `next_row_idx` are specification-only ghosts: they
give each record read from the stream an identity (its ordinal position),
which the de-duplication claims quantify over.  They shadow the reads the
source performs and influence nothing. -/

/-- `struct JoinFile` plus ghost record indices. -/
structure JoinFile where
  config : JoinFileConfig
  lines : List Str
  eof : Bool
  row : SplitLine
  printed : Bool
  next_row : SplitLine
  num_fields : Nat
  key_fields : List Nat
  row_idx : Nat
  next_row_idx : Nat
  deriving Repr, DecidableEq

/-- `fn read_line`: parse the next input line into `next_row`, or set
`eof`.  A read error panics in the source; the pure line list has no read
errors.  The `SplitLine::new` panic (empty key list) is propagated. -/
def read_line (f : JoinFile) : Option (JoinFile × Bool) :=
  match f.lines with
  | line :: rest =>
    (SplitLine.new line '\t' f.key_fields).map fun nr =>
      ({ f with lines := rest, next_row := nr, next_row_idx := f.next_row_idx + 1 }, true)
  | [] => some ({ f with eof := true }, false)

/-- `fn refill`: no-op returning false when already exhausted; otherwise
rotate the lookahead into `row` (via `clone`), clear the printed flag, and
attempt one more read (whose success or failure is not consulted). -/
def refill (f : JoinFile) : Option (JoinFile × Bool) :=
  if f.eof then some (f, false)
  else
    (read_line { f with row := f.next_row.clone, printed := false,
                        row_idx := f.next_row_idx }).map
      fun p =>
        match p with
        | (f2, _) => (f2, true)

/-- `fn first_fill`: one raw read, then one rotation; records the first
row's field count for the auto projection. -/
def first_fill (f : JoinFile) : Option (JoinFile × Bool) :=
  (read_line f).bind fun p =>
    match p with
    | (f1, true) =>
      (refill f1).map fun q =>
        match q with
        | (f2, ret) => ({ f2 with num_fields := f2.row.num_fields }, ret)
    | (f1, false) => some (f1, false)

/-- `JoinFile::new`: the initial cursor state.  Both placeholder rows are
built by `SplitLine::new("".into(), '\t', vec![])`, whose empty key list
the constructor itself rejects (the C9 claim), so the whole construction
is the panic. -/
def JoinFile.new (config : JoinFileConfig) (input : List Str) : Option JoinFile :=
  (SplitLine.new [] '\t' []).bind fun row =>
    (SplitLine.new [] '\t' []).map fun nrow =>
      { config := config, lines := input, eof := false, row := row, printed := false,
        next_row := nrow, num_fields := 0, key_fields := [],
        row_idx := 0, next_row_idx := 0 }

/-- `fn smart_refill` (lib.rs 384-400): after a matched emission, decide
from the lookahead records which cursor(s) to advance.  `left.refill() &&
right.refill()` short-circuits: a failed left refill skips the right one. -/
def smart_refill (l r : JoinFile) : Option (JoinFile × JoinFile × Bool) :=
  if l.eof then
    (refill r).map fun q =>
      match q with
      | (r', b) => (l, r', b)
  else if r.eof then
    (refill l).map fun p =>
      match p with
      | (l', b) => (l', r, b)
  else
    l.next_row.keys.bind fun lk =>
      r.next_row.keys.bind fun rk =>
        (compare_keys lk rk).bind fun o =>
          match o with
          | Ordering.eq =>
            (refill l).bind fun p =>
              match p with
              | (l', true) =>
                (refill r).map fun q =>
                  match q with
                  | (r', br) => (l', r', br)
              | (l', false) => some (l', r, false)
          | Ordering.lt =>
            (refill l).map fun p =>
              match p with
              | (l', b) => (l', r, b)
          | Ordering.gt =>
            (refill r).map fun q =>
              match q with
              | (r', b) => (l, r', b)

/-! ## Output Projector: `fn do_output` (lib.rs 317-380) -/

/-- One emitted row.  `pl`/`pr` say which sides are present, `lrow`/`rrow`
are the two current records at emission time, `lidx`/`ridx` their ghost
identities, and `vals` the projected column values (the source joins them
with the output delimiter and hands the line to `output_fn`). -/
structure OutEvent where
  pl : Bool
  pr : Bool
  lrow : SplitLine
  rrow : SplitLine
  lidx : Nat
  ridx : Nat
  vals : List Str
  deriving Repr, DecidableEq

/-- The `OutputOrder::Explicit` arm of `do_output`: fold the descriptor
list, appending the key values for `JoinField` (the source `append`s the
key vector out of the local `keys`, so a second `JoinField` descriptor
appends nothing) and one value per `FileField`.  A leftover
`NamedFileField` panics. -/
def outputValsExplicit (l r : JoinFile) (pl pr : Bool) :
    List OutputField → List Str → Option (List Str)
  | [], _ => some []
  | OutputField.JoinField :: rest, ks =>
    (outputValsExplicit l r pl pr rest []).map fun vs => ks ++ vs
  | OutputField.FileField file field :: rest, ks =>
    let f := if file == 1 then l else r
    let v : Str :=
      if (file == 1 && pl) || (file == 2 && pr) then
        if field < f.row.num_fields then f.row.field field else []
      else
        f.config.missing
    (outputValsExplicit l r pl pr rest ks).map fun vs => v :: vs
  | OutputField.NamedFileField _ _ :: _, _ => none

/-- `fn do_output`: mark the printed side(s), take the key values of the
printed side (left when both), and project one row of column values. -/
def do_output (ord : OutputOrder) (l r : JoinFile) (pl pr : Bool) :
    Option (JoinFile × JoinFile × OutEvent) :=
  let l' := if pl then { l with printed := true } else l
  let r' := if pr then { r with printed := true } else r
  (if pl then l'.row.keys else r'.row.keys).bind fun ks =>
    (match ord with
      | OutputOrder.GnuDefault =>
        some (ks ++ (if pl then l'.row.fields_except_keys else [])
                 ++ (if pr then r'.row.fields_except_keys else []))
      | OutputOrder.Explicit fields => outputValsExplicit l' r' pl pr fields ks
      | OutputOrder.Auto => none).map fun vals =>
      (l', r', { pl := pl, pr := pr, lrow := l'.row, rrow := r'.row,
                 lidx := l'.row_idx, ridx := r'.row_idx, vals := vals })

/-! ## Merge Driver: the loop of `fn join` (lib.rs 229-273)

The `while todo` loop becomes a fuel-indexed recursion; running out of fuel
is `none`, and every claim either supplies ample fuel for its concrete
input or quantifies over runs that return `some`. -/

/-- One iteration of the merge loop: the three-way comparison of the two
current keys, the emission it triggers, and the advance.  Returns the
updated cursors, the events emitted this iteration, and the `todo` flag. -/
def joinStep (ord : OutputOrder) (l r : JoinFile) :
    Option (JoinFile × JoinFile × List OutEvent × Bool) :=
  l.row.keys.bind fun lk =>
    r.row.keys.bind fun rk =>
      (compare_keys lk rk).bind fun o =>
        match o with
        | Ordering.eq =>
          (do_output ord l r true true).bind fun x =>
            match x with
            | (l', r', e) =>
              (smart_refill l' r').map fun y =>
                match y with
                | (l2, r2, todo) => (l2, r2, [e], todo)
        | Ordering.lt =>
          (if l.config.all && !l.printed then
            (do_output ord l r true false).map fun x =>
              match x with
              | (l', r', e) => (l', r', [e])
          else
            some (l, r, ([] : List OutEvent))).bind fun z =>
            match z with
            | (l', r', es) =>
              (refill l').map fun p =>
                match p with
                | (l2, todo) => (l2, r', es, todo)
        | Ordering.gt =>
          (if r.config.all && !r.printed then
            (do_output ord l r false true).map fun x =>
              match x with
              | (l', r', e) => (l', r', [e])
          else
            some (l, r, ([] : List OutEvent))).bind fun z =>
            match z with
            | (l', r', es) =>
              (refill r').map fun p =>
                match p with
                | (r2, todo) => (l', r2, es, todo)

/-- The `while todo` loop, iterating `joinStep`. -/
def joinLoop (ord : OutputOrder) : Nat → JoinFile → JoinFile →
    Option (JoinFile × JoinFile × List OutEvent)
  | 0, _, _ => none
  | fuel + 1, l, r =>
    (joinStep ord l r).bind fun s =>
      match s with
      | (l', r', es, true) =>
        (joinLoop ord fuel l' r').map fun x =>
          match x with
          | (a, b, evs) => (a, b, es ++ evs)
      | (l', r', es, false) => some (l', r', es)

/-- The left drain loop (lib.rs 261-265): `while left.refill() {
do_output(.., true, false) }`. -/
def drainLeft (ord : OutputOrder) : Nat → JoinFile → JoinFile → List OutEvent →
    Option (JoinFile × JoinFile × List OutEvent)
  | 0, _, _, _ => none
  | fuel + 1, l, r, evs =>
    (refill l).bind fun p =>
      match p with
      | (l', true) =>
        (do_output ord l' r true false).bind fun x =>
          match x with
          | (l2, r2, e) => drainLeft ord fuel l2 r2 (evs ++ [e])
      | (l', false) => some (l', r, evs)

/-- The right drain loop (lib.rs 266-270), symmetric. -/
def drainRight (ord : OutputOrder) : Nat → JoinFile → JoinFile → List OutEvent →
    Option (JoinFile × JoinFile × List OutEvent)
  | 0, _, _, _ => none
  | fuel + 1, l, r, evs =>
    (refill r).bind fun p =>
      match p with
      | (r', true) =>
        (do_output ord l r' false true).bind fun x =>
          match x with
          | (l2, r2, e) => drainRight ord fuel l2 r2 (evs ++ [e])
      | (r', false) => some (l, r', evs)

/-- The post-loop code of `fn join` (lib.rs 252-270): flush the two held
current records if their side emits unmatched rows and they were not yet
printed, then stream the one side that may still have input. -/
def joinFlush (ord : OutputOrder) (fuel : Nat) (l r : JoinFile) (evs : List OutEvent) :
    Option (JoinFile × JoinFile × List OutEvent) :=
  (if l.config.all && !l.printed then
    (do_output ord l r true false).map fun x =>
      match x with
      | (l1, r1, e) => (l1, r1, evs ++ [e])
  else
    some (l, r, evs)).bind fun a =>
    match a with
    | (l1, r1, evs1) =>
      (if r1.config.all && !r1.printed then
        (do_output ord l1 r1 false true).map fun x =>
          match x with
          | (l2, r2, e) => (l2, r2, evs1 ++ [e])
      else
        some (l1, r1, evs1)).bind fun c =>
        match c with
        | (l2, r2, evs2) =>
          if !l2.eof && l2.config.all then drainLeft ord fuel l2 r2 evs2
          else if !r2.eof && r2.config.all then drainRight ord fuel l2 r2 evs2
          else some (l2, r2, evs2)

/-- The merge loop followed by the flush: everything `fn join` does after
both cursors are primed and the projection is resolved. -/
def joinRun (ord : OutputOrder) (fuel : Nat) (l r : JoinFile) : Option (List OutEvent) :=
  (joinLoop ord fuel l r).bind fun x =>
    match x with
    | (l1, r1, evs) =>
      (joinFlush ord fuel l1 r1 evs).map fun y =>
        match y with
        | (_, _, evs2) => evs2

/-! ## The pre-loop phase of `fn join` (lib.rs 152-227) -/

/-- The `OutputOrder::Auto` expansion (lib.rs 170-183): the join key first,
then for each file every field index below its first-row field count whose
index the *row's* key list does not contain.  (The rows at this program
point still carry the empty key list the cursor constructor gave them;
`f.key_fields` is populated only afterwards, at lib.rs 220.) -/
def autoExpand (lnum : Nat) (lrowkeys : List Nat) (rnum : Nat) (rrowkeys : List Nat) :
    List OutputField :=
  OutputField.JoinField ::
    (((List.range lnum).filter fun fi => !(lrowkeys.contains fi)).map
        fun fi => OutputField.FileField 1 fi)
    ++ ((List.range rnum).filter fun fi => !(rrowkeys.contains fi)).map
        fun fi => OutputField.FileField 2 fi

/-- The key population at lib.rs 220-227: `Indexed` selectors become
indices, a `Named` selector without `--header` panics. -/
def resolveKeyFields : List KeyField → Option (List Nat) :=
  optMap fun k =>
    match k with
    | KeyField.Indexed n => some n
    | KeyField.Named _ => none

/-- `fn join` end to end (header path excluded; no claim enables it):
construct the two cursors, prime them, expand an `Auto` projection,
populate the key index lists, then run the loop and the flush. -/
def joinProgram (cfg : JoinConfig) (llines rlines : List Str) (fuel : Nat) :
    Option (List OutEvent) :=
  (JoinFile.new cfg.left llines).bind fun l0 =>
    (JoinFile.new cfg.right rlines).bind fun r0 =>
      (first_fill l0).bind fun pl =>
        match pl with
        | (l1, true) =>
          (first_fill r0).bind fun pr =>
            match pr with
            | (r1, true) =>
              let ord :=
                match cfg.output with
                | OutputOrder.Auto =>
                  OutputOrder.Explicit
                    (autoExpand l1.num_fields l1.row.key_fields
                      r1.num_fields r1.row.key_fields)
                | o => o
              (resolveKeyFields cfg.left.key_fields).bind fun lkeys =>
                (resolveKeyFields cfg.right.key_fields).bind fun rkeys =>
                  joinRun ord fuel { l1 with key_fields := lkeys }
                    { r1 with key_fields := rkeys }
            | (_, false) => none
        | (_, false) => none

/-! ## Loop-level harness

`JoinFile::new` never completes (C9), and the rows read while priming are
built before lib.rs 220 populates `key_fields`, so no cursor state the
merge loop is written for is actually reachable: the loop claims are
settled over cursors primed with the configured key indices already in
place — the states lines 229-273 are written to process. -/

/-- A cursor before priming, carrying its resolved key indices and the
source's placeholder rows (struct literal, cf. C9). -/
def initFileU (cfg : JoinFileConfig) (kf : List Nat) (input : List Str) : JoinFile :=
  { config := cfg, lines := input, eof := false, printed := false,
    row := mkSplitLineU [] '\t' [], next_row := mkSplitLineU [] '\t' [],
    num_fields := 0, key_fields := kf, row_idx := 0, next_row_idx := 0 }

/-- Prime a cursor: `first_fill` on the initial state. -/
def primeFile (cfg : JoinFileConfig) (kf : List Nat) (input : List Str) :
    Option (JoinFile × Bool) :=
  first_fill (initFileU cfg kf input)

/-- Prime both cursors and run the merge loop and flush on them. -/
def runPrimed (ord : OutputOrder) (cl cr : JoinFileConfig) (kl kr : List Nat)
    (llines rlines : List Str) (fuel : Nat) : Option (List OutEvent) :=
  (primeFile cl kl llines).bind fun pl =>
    (primeFile cr kr rlines).bind fun pr =>
      match pl, pr with
      | (l, true), (r, true) => joinRun ord fuel l r
      | _, _ => none

/-- Shorthand for writing concrete lines and field values. -/
def str (s : String) : Str := s.toList

/-! ## Specification predicates -/

/-- Both records a cursor holds, and the list new records will be parsed
with, carry `k` key fields.  The spec calls a key-arity mismatch between
the two sides a configuration error, so the claims about the merge loop
assume a common arity. -/
def UniformArity (f : JoinFile) (k : Nat) : Prop :=
  f.row.key_fields.length = k ∧ f.next_row.key_fields.length = k ∧ f.key_fields.length = k

/-- The ghost indices are consistent: while the stream is not exhausted
the lookahead record is strictly newer than the current one. -/
def IdxInv (f : JoinFile) : Prop := f.eof = false → f.row_idx < f.next_row_idx

/-- Every left-present event concerns a record no newer than the current
one, and the current record is untouched unless its printed flag is set. -/
def ULInv (l : JoinFile) (evs : List OutEvent) : Prop :=
  ∀ e ∈ evs, e.pl = true → e.pr = false →
    e.lidx < l.row_idx ∨ (e.lidx = l.row_idx ∧ l.printed = true)

/-- Mirror image of `ULInv` for the right cursor. -/
def URInv (r : JoinFile) (evs : List OutEvent) : Prop :=
  ∀ e ∈ evs, e.pl = false → e.pr = true →
    e.ridx < r.row_idx ∨ (e.ridx = r.row_idx ∧ r.printed = true)

/-- Identities of the records emitted unmatched on the left side. -/
def unmatchedLeftIdxs (evs : List OutEvent) : List Nat :=
  (evs.filter fun e => e.pl && !e.pr).map fun e => e.lidx

/-- Identities of the records emitted unmatched on the right side. -/
def unmatchedRightIdxs (evs : List OutEvent) : List Nat :=
  (evs.filter fun e => !e.pl && e.pr).map fun e => e.ridx

/-! ## Concrete instances used by examples, witnesses and counterexamples -/

/-- A side that emits unmatched rows, key field 0, placeholder `-`. -/
def cfgOuter : JoinFileConfig :=
  { all := true, key_fields := [KeyField.Indexed 0], missing := str "-" }

/-- A side that does not emit unmatched rows, key field 0, placeholder `-`. -/
def cfgInner : JoinFileConfig :=
  { all := false, key_fields := [KeyField.Indexed 0], missing := str "-" }

/-- Project the key only. -/
def ordKey : OutputOrder := OutputOrder.Explicit [OutputField.JoinField]

/-- Key, second field of file 1, second field of file 2 — the projection
of the spec's worked example. -/
def ordKeyF1F2 : OutputOrder :=
  OutputOrder.Explicit
    [OutputField.JoinField, OutputField.FileField 1 1, OutputField.FileField 2 1]

/-- A primed single-record cursor holding `a<TAB>x`: the state `first_fill`
leaves behind on a one-line input (lookahead stale, stream exhausted). -/
def wFileL : JoinFile :=
  { config := cfgInner, lines := [], eof := true,
    row := mkSplitLineU (str "a\tx") '\t' [0], printed := false,
    next_row := mkSplitLineU (str "a\tx") '\t' [0], num_fields := 2,
    key_fields := [0], row_idx := 1, next_row_idx := 1 }

/-- Same, holding `a<TAB>y`. -/
def wFileR : JoinFile :=
  { config := cfgInner, lines := [], eof := true,
    row := mkSplitLineU (str "a\ty") '\t' [0], printed := false,
    next_row := mkSplitLineU (str "a\ty") '\t' [0], num_fields := 2,
    key_fields := [0], row_idx := 1, next_row_idx := 1 }

/-- The single matched event `joinRun ordKey 10 wFileL wFileR` emits. -/
def wEvent : OutEvent :=
  { pl := true, pr := true, lrow := mkSplitLineU (str "a\tx") '\t' [0],
    rrow := mkSplitLineU (str "a\ty") '\t' [0], lidx := 1, ridx := 1,
    vals := [str "a"] }

/-- A primed two-record cursor: current `b<TAB>1`, lookahead `b<TAB>2`. -/
def wFileA : JoinFile :=
  { config := cfgInner, lines := [], eof := false,
    row := mkSplitLineU (str "b\t1") '\t' [0], printed := false,
    next_row := mkSplitLineU (str "b\t2") '\t' [0], num_fields := 2,
    key_fields := [0], row_idx := 1, next_row_idx := 2 }

/-- A primed two-record cursor: current `b<TAB>3`, lookahead `c<TAB>4`. -/
def wFileB : JoinFile :=
  { config := cfgInner, lines := [], eof := false,
    row := mkSplitLineU (str "b\t3") '\t' [0], printed := false,
    next_row := mkSplitLineU (str "c\t4") '\t' [0], num_fields := 2,
    key_fields := [0], row_idx := 1, next_row_idx := 2 }

/-- A primed single-record outer-join cursor holding `1<TAB>A`. -/
def wFileLU : JoinFile :=
  { config := cfgOuter, lines := [], eof := true,
    row := mkSplitLineU (str "1\tA") '\t' [0], printed := false,
    next_row := mkSplitLineU (str "1\tA") '\t' [0], num_fields := 2,
    key_fields := [0], row_idx := 1, next_row_idx := 1 }

/-- A primed single-record inner-join cursor holding `2<TAB>X`. -/
def wFileRU : JoinFile :=
  { config := cfgInner, lines := [], eof := true,
    row := mkSplitLineU (str "2\tX") '\t' [0], printed := false,
    next_row := mkSplitLineU (str "2\tX") '\t' [0], num_fields := 2,
    key_fields := [0], row_idx := 1, next_row_idx := 1 }

/-- The one unmatched-left event of the run on left `1<TAB>A` (outer),
right `2<TAB>X` (inner). -/
def wEventU : OutEvent :=
  { pl := true, pr := false, lrow := mkSplitLineU (str "1\tA") '\t' [0],
    rrow := mkSplitLineU (str "2\tX") '\t' [0], lidx := 1, ridx := 1,
    vals := [str "1"] }

/-- A field view over two fields with key field 0, for the clone claim. -/
def wSplit : SplitLine := mkSplitLineU (str "k\tv") '\t' [0]

/-! ## Lemmas about comparison -/

lemma cmpChar_eq_iff (a b : Char) : cmpChar a b = Ordering.eq ↔ a = b := by
  unfold cmpChar
  split
  · next h => simp [ne_of_lt h]
  · split
    · next h => simp [h]
    · next h => simp [h]

lemma cmpStr_eq_iff : ∀ s t : Str, cmpStr s t = Ordering.eq ↔ s = t
  | [], [] => by simp [cmpStr]
  | [], _ :: _ => by simp [cmpStr]
  | _ :: _, [] => by simp [cmpStr]
  | a :: s, b :: t => by
    simp only [cmpStr]
    cases h : cmpChar a b with
    | eq =>
      have hab : a = b := (cmpChar_eq_iff a b).mp h
      simp [hab, cmpStr_eq_iff s t]
    | lt =>
      have hab : a ≠ b := fun hc => by
        rw [(cmpChar_eq_iff a b).mpr hc] at h; cases h
      simp [hab]
    | gt =>
      have hab : a ≠ b := fun hc => by
        rw [(cmpChar_eq_iff a b).mpr hc] at h; cases h
      simp [hab]

lemma compare_keys_eq_iff : ∀ l r : List Str,
    compare_keys l r = some Ordering.eq ↔ l = r.take l.length
  | [], r => by simp [compare_keys]
  | _ :: _, [] => by simp [compare_keys]
  | x :: xs, y :: ys => by
    simp only [compare_keys, List.length_cons, List.take_succ_cons]
    cases h : cmpStr x y with
    | eq =>
      have hxy : x = y := (cmpStr_eq_iff x y).mp h
      simp [hxy, compare_keys_eq_iff xs ys]
    | lt =>
      have hxy : x ≠ y := fun hc => by
        rw [(cmpStr_eq_iff x y).mpr hc] at h; cases h
      simp [hxy]
    | gt =>
      have hxy : x ≠ y := fun hc => by
        rw [(cmpStr_eq_iff x y).mpr hc] at h; cases h
      simp [hxy]

lemma compare_keys_none_iff : ∀ l r : List Str,
    compare_keys l r = none ↔ r.length < l.length ∧ r = l.take r.length
  | [], r => by simp [compare_keys]
  | _ :: _, [] => by simp [compare_keys]
  | x :: xs, y :: ys => by
    simp only [compare_keys, List.length_cons, List.take_succ_cons]
    cases h : cmpStr x y with
    | eq =>
      have hxy : x = y := (cmpStr_eq_iff x y).mp h
      simp [hxy, compare_keys_none_iff xs ys, Nat.succ_lt_succ_iff]
    | lt =>
      have hxy : y ≠ x := fun hc => by
        rw [(cmpStr_eq_iff x y).mpr hc.symm] at h; cases h
      simp [hxy]
    | gt =>
      have hxy : y ≠ x := fun hc => by
        rw [(cmpStr_eq_iff x y).mpr hc.symm] at h; cases h
      simp [hxy]

lemma compare_keys_eq_of_len {l r : List Str} (h : compare_keys l r = some Ordering.eq)
    (hl : l.length = r.length) : l = r := by
  have := (compare_keys_eq_iff l r).mp h
  rwa [hl, List.take_length] at this

/-! ## Lemmas about the field view -/

lemma SplitLine.clone_eq (s : SplitLine) : s.clone = s := by
  cases s
  simp [SplitLine.clone]

lemma optMap_length {α β : Type} (f : α → Option β) :
    ∀ xs ys, optMap f xs = some ys → ys.length = xs.length
  | [], ys, h => by
    simp only [optMap] at h
    cases h
    rfl
  | x :: xs, ys, h => by
    simp only [optMap] at h
    cases hf : f x with
    | none => rw [hf] at h; cases h
    | some y =>
      cases ho : optMap f xs with
      | none => rw [hf, ho] at h; cases h
      | some ys' =>
        rw [hf, ho] at h
        cases h
        simp [optMap_length f xs ys' ho]

lemma SplitLine.keys_length {s : SplitLine} {ks : List Str} (h : s.keys = some ks) :
    ks.length = s.key_fields.length :=
  optMap_length _ _ _ h

lemma SplitLine.new_empty (line : Str) (d : Char) : SplitLine.new line d [] = none := rfl

lemma SplitLine.new_some {line : Str} {d : Char} {kf : List Nat} {s : SplitLine}
    (h : SplitLine.new line d kf = some s) : s = mkSplitLineU line d kf ∧ kf ≠ [] := by
  unfold SplitLine.new at h
  split at h
  · cases h
  · next hne =>
    cases h
    exact ⟨rfl, by simpa [List.isEmpty_iff] using hne⟩

lemma SplitLine.new_key_fields {line : Str} {d : Char} {kf : List Nat} {s : SplitLine}
    (h : SplitLine.new line d kf = some s) : s.key_fields = kf := by
  rw [(SplitLine.new_some h).1]
  rfl

/-! ## Shape lemmas for the cursor operations -/

lemma read_line_shape {f f' : JoinFile} {b : Bool} (h : read_line f = some (f', b)) :
    (b = false ∧ f.lines = [] ∧ f' = { f with eof := true }) ∨
    (b = true ∧ ∃ ln rest nr, f.lines = ln :: rest ∧
      SplitLine.new ln '\t' f.key_fields = some nr ∧
      f' = { f with lines := rest, next_row := nr, next_row_idx := f.next_row_idx + 1 }) := by
  unfold read_line at h
  cases hl : f.lines with
  | nil =>
    rw [hl] at h
    cases h
    exact Or.inl ⟨rfl, rfl, rfl⟩
  | cons ln rest =>
    rw [hl] at h
    rw [Option.map_eq_some'] at h
    obtain ⟨nr, hnr, heq⟩ := h
    cases heq
    exact Or.inr ⟨rfl, ln, rest, nr, rfl, hnr, rfl⟩

lemma refill_shape {f f' : JoinFile} {b : Bool} (h : refill f = some (f', b)) :
    (f.eof = true ∧ f' = f ∧ b = false) ∨
    (f.eof = false ∧ b = true ∧ f'.config = f.config ∧ f'.key_fields = f.key_fields ∧
     f'.row = f.next_row ∧ f'.printed = false ∧ f'.row_idx = f.next_row_idx ∧
     (f'.next_row = f.next_row ∨ f'.next_row.key_fields = f.key_fields) ∧
     (f'.eof = false → f'.next_row_idx = f.next_row_idx + 1)) := by
  unfold refill at h
  split at h
  · next heof =>
    cases h
    exact Or.inl ⟨heof, rfl, rfl⟩
  · next heof =>
    rw [Option.map_eq_some'] at h
    obtain ⟨⟨f2, b2⟩, hrl, hpure⟩ := h
    cases hpure
    rcases read_line_shape hrl with ⟨_, _, hf2⟩ | ⟨_, ln, rest, nr, _, hnr, hf2⟩
    · subst hf2
      refine Or.inr ⟨by simpa using heof, rfl, rfl, rfl, ?_, rfl, rfl, Or.inl rfl, ?_⟩
      · simp [SplitLine.clone_eq]
      · intro hc
        simp at hc
    · subst hf2
      refine Or.inr ⟨by simpa using heof, rfl, rfl, rfl, ?_, rfl, rfl, ?_, fun _ => rfl⟩
      · simp [SplitLine.clone_eq]
      · right
        simpa using SplitLine.new_key_fields hnr

lemma do_output_shape {ord : OutputOrder} {l r l' r' : JoinFile} {pl pr : Bool} {e : OutEvent}
    (h : do_output ord l r pl pr = some (l', r', e)) :
    l' = (if pl then { l with printed := true } else l) ∧
    r' = (if pr then { r with printed := true } else r) ∧
    e.pl = pl ∧ e.pr = pr ∧ e.lrow = l.row ∧ e.rrow = r.row ∧
    e.lidx = l.row_idx ∧ e.ridx = r.row_idx := by
  simp only [do_output] at h
  rw [Option.bind_eq_some] at h
  obtain ⟨ks, hks, h⟩ := h
  rw [Option.map_eq_some'] at h
  obtain ⟨vals, hv, h⟩ := h
  cases h
  refine ⟨rfl, rfl, rfl, rfl, ?_, ?_, ?_, ?_⟩ <;> cases pl <;> cases pr <;> rfl

/-- `do_output` only sets printed flags: every other cursor component is
preserved. -/
lemma do_output_pres {ord : OutputOrder} {l r l' r' : JoinFile} {pl pr : Bool} {e : OutEvent}
    (h : do_output ord l r pl pr = some (l', r', e)) :
    l'.row = l.row ∧ l'.next_row = l.next_row ∧ l'.key_fields = l.key_fields ∧
    l'.eof = l.eof ∧ l'.config = l.config ∧ l'.row_idx = l.row_idx ∧
    l'.next_row_idx = l.next_row_idx ∧
    r'.row = r.row ∧ r'.next_row = r.next_row ∧ r'.key_fields = r.key_fields ∧
    r'.eof = r.eof ∧ r'.config = r.config ∧ r'.row_idx = r.row_idx ∧
    r'.next_row_idx = r.next_row_idx := by
  obtain ⟨hl, hr, -⟩ := do_output_shape h
  subst hl
  subst hr
  cases pl <;> cases pr <;> exact ⟨rfl, rfl, rfl, rfl, rfl, rfl, rfl, rfl, rfl, rfl, rfl,
    rfl, rfl, rfl⟩

/-- A refill preserves a uniform key arity. -/
lemma refill_arity {f f' : JoinFile} {b : Bool} {k : Nat} (hu : UniformArity f k)
    (h : refill f = some (f', b)) : UniformArity f' k := by
  rcases refill_shape h with ⟨_, rfl, _⟩ | ⟨_, _, _, hkf, hrow, _, _, hnext, _⟩
  · exact hu
  · refine ⟨?_, ?_, ?_⟩
    · rw [hrow]; exact hu.2.1
    · rcases hnext with h1 | h1
      · rw [h1]; exact hu.2.1
      · rw [h1]; exact hu.2.2
    · rw [hkf]; exact hu.2.2

/-- Whatever `smart_refill` decides, each returned cursor is either the
input cursor unchanged or the result of one `refill` of it. -/
lemma smart_refill_cases {l r l2 r2 : JoinFile} {todo : Bool}
    (h : smart_refill l r = some (l2, r2, todo)) :
    (∃ b, refill r = some (r2, b) ∧ l2 = l) ∨
    (∃ b, refill l = some (l2, b) ∧ r2 = r) ∨
    (∃ bl br, refill l = some (l2, bl) ∧ refill r = some (r2, br)) := by
  unfold smart_refill at h
  split at h
  · rw [Option.map_eq_some'] at h
    obtain ⟨⟨r', b⟩, hr, heq⟩ := h
    cases heq
    exact Or.inl ⟨_, hr, rfl⟩
  · split at h
    · rw [Option.map_eq_some'] at h
      obtain ⟨⟨l', b⟩, hl, heq⟩ := h
      cases heq
      exact Or.inr (Or.inl ⟨_, hl, rfl⟩)
    · rw [Option.bind_eq_some] at h
      obtain ⟨lk, hlk, h⟩ := h
      rw [Option.bind_eq_some] at h
      obtain ⟨rk, hrk, h⟩ := h
      rw [Option.bind_eq_some] at h
      obtain ⟨o, hcmp, h⟩ := h
      cases o with
      | eq =>
        rw [Option.bind_eq_some] at h
        obtain ⟨⟨l', bl⟩, hl, h⟩ := h
        cases bl with
        | true =>
          rw [Option.map_eq_some'] at h
          obtain ⟨⟨r', br⟩, hr, heq⟩ := h
          cases heq
          exact Or.inr (Or.inr ⟨_, _, hl, hr⟩)
        | false =>
          cases h
          exact Or.inr (Or.inl ⟨_, hl, rfl⟩)
      | lt =>
        rw [Option.map_eq_some'] at h
        obtain ⟨⟨l', b⟩, hl, heq⟩ := h
        cases heq
        exact Or.inr (Or.inl ⟨_, hl, rfl⟩)
      | gt =>
        rw [Option.map_eq_some'] at h
        obtain ⟨⟨r', b⟩, hr, heq⟩ := h
        cases heq
        exact Or.inl ⟨_, hr, rfl⟩

/-- `smart_refill` preserves a uniform key arity on both sides. -/
lemma smart_refill_arity {l r l2 r2 : JoinFile} {todo : Bool} {k : Nat}
    (hl : UniformArity l k) (hr : UniformArity r k)
    (h : smart_refill l r = some (l2, r2, todo)) :
    UniformArity l2 k ∧ UniformArity r2 k := by
  rcases smart_refill_cases h with ⟨b, hrr, rfl⟩ | ⟨b, hll, rfl⟩ | ⟨bl, br, hll, hrr⟩
  · exact ⟨hl, refill_arity hr hrr⟩
  · exact ⟨refill_arity hl hll, hr⟩
  · exact ⟨refill_arity hl hll, refill_arity hr hrr⟩

/-- `do_output` preserves a uniform key arity on both sides. -/
lemma do_output_arity {ord : OutputOrder} {l r l' r' : JoinFile} {pl pr : Bool} {e : OutEvent}
    {k : Nat} (hl : UniformArity l k) (hr : UniformArity r k)
    (h : do_output ord l r pl pr = some (l', r', e)) :
    UniformArity l' k ∧ UniformArity r' k := by
  obtain ⟨h1, h2, h3, -, -, -, -, h8, h9, h10, -⟩ := do_output_pres h
  exact ⟨⟨h1 ▸ hl.1, h2 ▸ hl.2.1, h3 ▸ hl.2.2⟩, ⟨h8 ▸ hr.1, h9 ▸ hr.2.1, h10 ▸ hr.2.2⟩⟩

/-- A loop iteration preserves a uniform key arity, and any matched event
it emits carries two records with the same (defined) key values. -/
lemma joinStep_arity_sound {ord : OutputOrder} {l r l2 r2 : JoinFile} {es : List OutEvent}
    {todo : Bool} {k : Nat} (h : joinStep ord l r = some (l2, r2, es, todo))
    (hl : UniformArity l k) (hr : UniformArity r k) :
    UniformArity l2 k ∧ UniformArity r2 k ∧
    ∀ e ∈ es, e.pl = true → e.pr = true →
      ∃ ks, e.lrow.keys = some ks ∧ e.rrow.keys = some ks := by
  unfold joinStep at h
  rw [Option.bind_eq_some] at h
  obtain ⟨lk, hlk, h⟩ := h
  rw [Option.bind_eq_some] at h
  obtain ⟨rk, hrk, h⟩ := h
  rw [Option.bind_eq_some] at h
  obtain ⟨o, hcmp, h⟩ := h
  cases o with
  | eq =>
    rw [Option.bind_eq_some] at h
    obtain ⟨⟨lp, rp, e⟩, hdo, h⟩ := h
    rw [Option.map_eq_some'] at h
    obtain ⟨⟨la, ra, td⟩, hsr, heq⟩ := h
    cases heq
    obtain ⟨ha1, ha2⟩ := do_output_arity hl hr hdo
    obtain ⟨hb1, hb2⟩ := smart_refill_arity ha1 ha2 hsr
    refine ⟨hb1, hb2, ?_⟩
    intro e' he' _ _
    rw [List.mem_singleton] at he'
    subst he'
    obtain ⟨-, -, -, -, hlrow, hrrow, -, -⟩ := do_output_shape hdo
    have hlen : lk.length = rk.length := by
      rw [SplitLine.keys_length hlk, SplitLine.keys_length hrk, hl.1, hr.1]
    have hkeq : lk = rk := compare_keys_eq_of_len hcmp hlen
    exact ⟨lk, by rw [hlrow]; exact hlk, by rw [hrrow, hkeq]; exact hrk⟩
  | lt =>
    rw [Option.bind_eq_some] at h
    obtain ⟨⟨lp, rp, es'⟩, hz, h⟩ := h
    rw [Option.map_eq_some'] at h
    obtain ⟨⟨la, td⟩, hrf, heq⟩ := h
    cases heq
    split at hz
    · rw [Option.map_eq_some'] at hz
      obtain ⟨⟨lq, rq, e⟩, hdo, heq2⟩ := hz
      cases heq2
      obtain ⟨ha1, ha2⟩ := do_output_arity hl hr hdo
      refine ⟨refill_arity ha1 hrf, ha2, ?_⟩
      intro e' he' _ hpr
      rw [List.mem_singleton] at he'
      subst he'
      obtain ⟨-, -, -, hpre, -⟩ := do_output_shape hdo
      rw [hpre] at hpr
      cases hpr
    · cases hz
      exact ⟨refill_arity hl hrf, hr, by intro e' he'; cases he'⟩
  | gt =>
    rw [Option.bind_eq_some] at h
    obtain ⟨⟨lp, rp, es'⟩, hz, h⟩ := h
    rw [Option.map_eq_some'] at h
    obtain ⟨⟨ra, td⟩, hrf, heq⟩ := h
    cases heq
    split at hz
    · rw [Option.map_eq_some'] at hz
      obtain ⟨⟨lq, rq, e⟩, hdo, heq2⟩ := hz
      cases heq2
      obtain ⟨ha1, ha2⟩ := do_output_arity hl hr hdo
      refine ⟨ha1, refill_arity ha2 hrf, ?_⟩
      intro e' he' hpl _
      rw [List.mem_singleton] at he'
      subst he'
      obtain ⟨-, -, hple, -⟩ := do_output_shape hdo
      rw [hple] at hpl
      cases hpl
    · cases hz
      exact ⟨hl, refill_arity hr hrf, by intro e' he'; cases he'⟩

/-- The merge loop preserves a uniform key arity and emits only sound
matched events. -/
lemma joinLoop_arity_sound {ord : OutputOrder} {k : Nat} :
    ∀ {fuel : Nat} {l r l2 r2 : JoinFile} {evs : List OutEvent},
    joinLoop ord fuel l r = some (l2, r2, evs) →
    UniformArity l k → UniformArity r k →
    UniformArity l2 k ∧ UniformArity r2 k ∧
    ∀ e ∈ evs, e.pl = true → e.pr = true →
      ∃ ks, e.lrow.keys = some ks ∧ e.rrow.keys = some ks := by
  intro fuel
  induction fuel with
  | zero => intro l r l2 r2 evs h; cases h
  | succ fuel ih =>
    intro l r l2 r2 evs h hl hr
    unfold joinLoop at h
    rw [Option.bind_eq_some] at h
    obtain ⟨⟨l', r', es, todo⟩, hstep, h⟩ := h
    obtain ⟨ha1, ha2, hsound⟩ := joinStep_arity_sound hstep hl hr
    cases todo with
    | true =>
      rw [Option.map_eq_some'] at h
      obtain ⟨⟨a, b, evs'⟩, hloop, heq⟩ := h
      cases heq
      obtain ⟨hb1, hb2, hsound'⟩ := ih hloop ha1 ha2
      refine ⟨hb1, hb2, ?_⟩
      intro e he
      rcases List.mem_append.mp he with he | he
      · exact hsound e he
      · exact hsound' e he
    | false =>
      cases h
      exact ⟨ha1, ha2, hsound⟩

/-- Every event the left drain loop appends is a left-only event. -/
lemma drainLeft_events {ord : OutputOrder} :
    ∀ {fuel : Nat} {l r : JoinFile} {evs : List OutEvent} {l2 r2 : JoinFile}
      {evs' : List OutEvent},
    drainLeft ord fuel l r evs = some (l2, r2, evs') →
    ∀ e ∈ evs', e ∈ evs ∨ (e.pl = true ∧ e.pr = false) := by
  intro fuel
  induction fuel with
  | zero => intro l r evs l2 r2 evs' h; cases h
  | succ fuel ih =>
    intro l r evs l2 r2 evs' h
    unfold drainLeft at h
    rw [Option.bind_eq_some] at h
    obtain ⟨⟨l', b⟩, hrf, h⟩ := h
    cases b with
    | true =>
      rw [Option.bind_eq_some] at h
      obtain ⟨⟨la, ra, e⟩, hdo, h⟩ := h
      intro e' he'
      rcases ih h e' he' with hmem | hflag
      · rcases List.mem_append.mp hmem with hmem | hmem
        · exact Or.inl hmem
        · rw [List.mem_singleton] at hmem
          subst hmem
          obtain ⟨-, -, hpl, hpr, -⟩ := do_output_shape hdo
          exact Or.inr ⟨hpl, hpr⟩
      · exact Or.inr hflag
    | false =>
      cases h
      intro e' he'
      exact Or.inl he'

/-- Every event the right drain loop appends is a right-only event. -/
lemma drainRight_events {ord : OutputOrder} :
    ∀ {fuel : Nat} {l r : JoinFile} {evs : List OutEvent} {l2 r2 : JoinFile}
      {evs' : List OutEvent},
    drainRight ord fuel l r evs = some (l2, r2, evs') →
    ∀ e ∈ evs', e ∈ evs ∨ (e.pl = false ∧ e.pr = true) := by
  intro fuel
  induction fuel with
  | zero => intro l r evs l2 r2 evs' h; cases h
  | succ fuel ih =>
    intro l r evs l2 r2 evs' h
    unfold drainRight at h
    rw [Option.bind_eq_some] at h
    obtain ⟨⟨r', b⟩, hrf, h⟩ := h
    cases b with
    | true =>
      rw [Option.bind_eq_some] at h
      obtain ⟨⟨la, ra, e⟩, hdo, h⟩ := h
      intro e' he'
      rcases ih h e' he' with hmem | hflag
      · rcases List.mem_append.mp hmem with hmem | hmem
        · exact Or.inl hmem
        · rw [List.mem_singleton] at hmem
          subst hmem
          obtain ⟨-, -, hpl, hpr, -⟩ := do_output_shape hdo
          exact Or.inr ⟨hpl, hpr⟩
      · exact Or.inr hflag
    | false =>
      cases h
      intro e' he'
      exact Or.inl he'

/-- Every event the flush phase appends has at most one side present. -/
lemma joinFlush_events {ord : OutputOrder} {fuel : Nat} {l r l2 r2 : JoinFile}
    {evs evs' : List OutEvent} (h : joinFlush ord fuel l r evs = some (l2, r2, evs')) :
    ∀ e ∈ evs', e ∈ evs ∨ e.pl = false ∨ e.pr = false := by
  unfold joinFlush at h
  rw [Option.bind_eq_some] at h
  obtain ⟨⟨la, ra, evsa⟩, ha, h⟩ := h
  rw [Option.bind_eq_some] at h
  obtain ⟨⟨lc, rc, evsc⟩, hc, h⟩ := h
  have hstep1 : ∀ e ∈ evsa, e ∈ evs ∨ e.pl = false ∨ e.pr = false := by
    intro e he
    split at ha
    · rw [Option.map_eq_some'] at ha
      obtain ⟨⟨lx, rx, ex⟩, hdo, heq⟩ := ha
      cases heq
      rcases List.mem_append.mp he with hm | hm
      · exact Or.inl hm
      · rw [List.mem_singleton] at hm
        subst hm
        obtain ⟨-, -, -, hpr, -⟩ := do_output_shape hdo
        exact Or.inr (Or.inr hpr)
    · cases ha
      exact Or.inl he
  have hstep2 : ∀ e ∈ evsc, e ∈ evs ∨ e.pl = false ∨ e.pr = false := by
    intro e he
    split at hc
    · rw [Option.map_eq_some'] at hc
      obtain ⟨⟨lx, rx, ex⟩, hdo, heq⟩ := hc
      cases heq
      rcases List.mem_append.mp he with hm | hm
      · exact hstep1 e hm
      · rw [List.mem_singleton] at hm
        subst hm
        obtain ⟨-, -, hpl, -⟩ := do_output_shape hdo
        exact Or.inr (Or.inl hpl)
    · cases hc
      exact hstep1 e he
  intro e he
  dsimp only at h
  by_cases h1 : (!lc.eof && lc.config.all) = true
  · rw [if_pos h1] at h
    rcases drainLeft_events h e he with hm | hflag
    · exact hstep2 e hm
    · exact Or.inr (Or.inr hflag.2)
  · rw [if_neg h1] at h
    by_cases h2 : (!rc.eof && rc.config.all) = true
    · rw [if_pos h2] at h
      rcases drainRight_events h e he with hm | hflag
      · exact hstep2 e hm
      · exact Or.inr (Or.inl hflag.1)
    · rw [if_neg h2] at h
      cases h
      exact hstep2 e he

/-! ## The de-duplication invariant (claim C4) -/

/-- The joint invariant for the de-duplication claim: consistent ghost
indices, event identities bounded by the current records, and the
unmatched emissions so far duplicate-free. -/
def C4Inv (l r : JoinFile) (evs : List OutEvent) : Prop :=
  IdxInv l ∧ IdxInv r ∧ ULInv l evs ∧ URInv r evs ∧
  (unmatchedLeftIdxs evs).Nodup ∧ (unmatchedRightIdxs evs).Nodup

lemma unmatchedLeftIdxs_append (evs : List OutEvent) (e : OutEvent) :
    unmatchedLeftIdxs (evs ++ [e]) =
      unmatchedLeftIdxs evs ++ (if e.pl && !e.pr then [e.lidx] else []) := by
  unfold unmatchedLeftIdxs
  rw [List.filter_append, List.map_append]
  by_cases hc : (e.pl && !e.pr) = true
  · simp [hc]
  · simp [hc]

lemma unmatchedRightIdxs_append (evs : List OutEvent) (e : OutEvent) :
    unmatchedRightIdxs (evs ++ [e]) =
      unmatchedRightIdxs evs ++ (if !e.pl && e.pr then [e.ridx] else []) := by
  unfold unmatchedRightIdxs
  rw [List.filter_append, List.map_append]
  by_cases hc : (!e.pl && e.pr) = true
  · simp [hc]
  · simp [hc]

lemma unmatchedLeftIdxs_mem {evs : List OutEvent} {x : Nat}
    (hx : x ∈ unmatchedLeftIdxs evs) :
    ∃ e ∈ evs, e.pl = true ∧ e.pr = false ∧ e.lidx = x := by
  unfold unmatchedLeftIdxs at hx
  rw [List.mem_map] at hx
  obtain ⟨e, he, rfl⟩ := hx
  rw [List.mem_filter] at he
  obtain ⟨hmem, hcond⟩ := he
  rw [Bool.and_eq_true, Bool.not_eq_true'] at hcond
  exact ⟨e, hmem, hcond.1, hcond.2, rfl⟩

lemma unmatchedRightIdxs_mem {evs : List OutEvent} {x : Nat}
    (hx : x ∈ unmatchedRightIdxs evs) :
    ∃ e ∈ evs, e.pl = false ∧ e.pr = true ∧ e.ridx = x := by
  unfold unmatchedRightIdxs at hx
  rw [List.mem_map] at hx
  obtain ⟨e, he, rfl⟩ := hx
  rw [List.mem_filter] at he
  obtain ⟨hmem, hcond⟩ := he
  rw [Bool.and_eq_true, Bool.not_eq_true'] at hcond
  exact ⟨e, hmem, hcond.1, hcond.2, rfl⟩

/-- A left refill keeps the joint invariant (the advanced record is
strictly newer than everything emitted so far). -/
lemma C4Inv_refill_left {l r l' : JoinFile} {b : Bool} {evs : List OutEvent}
    (hinv : C4Inv l r evs) (h : refill l = some (l', b)) : C4Inv l' r evs := by
  obtain ⟨hil, hir, hul, hur, hnl, hnr⟩ := hinv
  rcases refill_shape h with ⟨_, rfl, _⟩ | ⟨heof, _, _, _, _, hpr, hri, _, hnext⟩
  · exact ⟨hil, hir, hul, hur, hnl, hnr⟩
  · have hlt : l.row_idx < l'.row_idx := by
      rw [hri]
      exact hil heof
    refine ⟨?_, hir, ?_, hur, hnl, hnr⟩
    · intro heof'
      rw [hri, hnext heof']
      exact Nat.lt_succ_self _
    · intro e he hpl hprr
      rcases hul e he hpl hprr with hx | hx
      · exact Or.inl (lt_trans hx hlt)
      · exact Or.inl (hx.1 ▸ hlt)

/-- A right refill keeps the joint invariant. -/
lemma C4Inv_refill_right {l r r' : JoinFile} {b : Bool} {evs : List OutEvent}
    (hinv : C4Inv l r evs) (h : refill r = some (r', b)) : C4Inv l r' evs := by
  obtain ⟨hil, hir, hul, hur, hnl, hnr⟩ := hinv
  rcases refill_shape h with ⟨_, rfl, _⟩ | ⟨heof, _, _, _, _, hpr, hri, _, hnext⟩
  · exact ⟨hil, hir, hul, hur, hnl, hnr⟩
  · have hlt : r.row_idx < r'.row_idx := by
      rw [hri]
      exact hir heof
    refine ⟨hil, ?_, hul, ?_, hnl, hnr⟩
    · intro heof'
      rw [hri, hnext heof']
      exact Nat.lt_succ_self _
    · intro e he hpl hprr
      rcases hur e he hpl hprr with hx | hx
      · exact Or.inl (lt_trans hx hlt)
      · exact Or.inl (hx.1 ▸ hlt)

/-- `smart_refill` keeps the joint invariant. -/
lemma C4Inv_smart_refill {l r l2 r2 : JoinFile} {todo : Bool} {evs : List OutEvent}
    (hinv : C4Inv l r evs) (h : smart_refill l r = some (l2, r2, todo)) :
    C4Inv l2 r2 evs := by
  rcases smart_refill_cases h with ⟨b, hrr, rfl⟩ | ⟨b, hll, rfl⟩ | ⟨bl, br, hll, hrr⟩
  · exact C4Inv_refill_right hinv hrr
  · exact C4Inv_refill_left hinv hll
  · exact C4Inv_refill_right (C4Inv_refill_left hinv hll) hrr

/-- A matched emission keeps the joint invariant: it adds no unmatched
event and only raises printed flags. -/
lemma C4Inv_do_output_tt {ord : OutputOrder} {l r l' r' : JoinFile} {e : OutEvent}
    {evs : List OutEvent} (hinv : C4Inv l r evs)
    (h : do_output ord l r true true = some (l', r', e)) : C4Inv l' r' (evs ++ [e]) := by
  obtain ⟨hil, hir, hul, hur, hnl, hnr⟩ := hinv
  obtain ⟨hle, hre, hepl, hepr, -, -, -, -⟩ := do_output_shape h
  obtain ⟨-, -, -, heofl, -, hril, -, -, -, -, heofr, -, hrir, -⟩ := do_output_pres h
  subst hle
  subst hre
  have hflag : (e.pl && !e.pr) = false := by rw [hepl, hepr]; rfl
  have hflag' : (!e.pl && e.pr) = false := by rw [hepl, hepr]; rfl
  refine ⟨hil, hir, ?_, ?_, ?_, ?_⟩
  · intro e' he' hpl hprr
    rcases List.mem_append.mp he' with hm | hm
    · rcases hul e' hm hpl hprr with hx | hx
      · exact Or.inl hx
      · exact Or.inr ⟨hx.1, rfl⟩
    · rw [List.mem_singleton] at hm
      subst hm
      rw [hepr] at hprr
      cases hprr
  · intro e' he' hpl hprr
    rcases List.mem_append.mp he' with hm | hm
    · rcases hur e' hm hpl hprr with hx | hx
      · exact Or.inl hx
      · exact Or.inr ⟨hx.1, rfl⟩
    · rw [List.mem_singleton] at hm
      subst hm
      rw [hepl] at hpl
      cases hpl
  · rw [unmatchedLeftIdxs_append, hflag]
    simpa using hnl
  · rw [unmatchedRightIdxs_append, hflag']
    simpa using hnr

/-- An unmatched-left emission keeps the joint invariant: the printed flag
being clear means the current left record identity is fresh among the
unmatched-left emissions, so appending it preserves `Nodup`. -/
lemma C4Inv_do_output_tf {ord : OutputOrder} {l r l' r' : JoinFile} {e : OutEvent}
    {evs : List OutEvent} (hinv : C4Inv l r evs) (hpf : l.printed = false)
    (h : do_output ord l r true false = some (l', r', e)) : C4Inv l' r' (evs ++ [e]) := by
  obtain ⟨hil, hir, hul, hur, hnl, hnr⟩ := hinv
  obtain ⟨hle, hre, hepl, hepr, -, -, hlidx, -⟩ := do_output_shape h
  subst hle
  subst hre
  have hflag : (e.pl && !e.pr) = true := by rw [hepl, hepr]; rfl
  have hflag' : (!e.pl && e.pr) = false := by rw [hepl]; rfl
  refine ⟨hil, hir, ?_, ?_, ?_, ?_⟩
  · intro e' he' hpl hprr
    rcases List.mem_append.mp he' with hm | hm
    · rcases hul e' hm hpl hprr with hx | hx
      · exact Or.inl hx
      · exact Or.inr ⟨hx.1, rfl⟩
    · rw [List.mem_singleton] at hm
      subst hm
      exact Or.inr ⟨hlidx, rfl⟩
  · intro e' he' hpl hprr
    rcases List.mem_append.mp he' with hm | hm
    · exact hur e' hm hpl hprr
    · rw [List.mem_singleton] at hm
      subst hm
      rw [hepl] at hpl
      cases hpl
  · rw [unmatchedLeftIdxs_append, hflag, if_pos rfl, List.nodup_append]
    refine ⟨hnl, List.nodup_singleton _, ?_⟩
    intro x hxm hxs
    rw [List.mem_singleton] at hxs
    subst hxs
    obtain ⟨e', he', hpl', hpr', hidx'⟩ := unmatchedLeftIdxs_mem hxm
    rcases hul e' he' hpl' hpr' with hx | hx
    · rw [hidx', hlidx] at hx
      exact lt_irrefl _ hx
    · rw [hpf] at hx
      cases hx.2
  · rw [unmatchedRightIdxs_append, hflag']
    simpa using hnr

/-- An unmatched-right emission keeps the joint invariant. -/
lemma C4Inv_do_output_ft {ord : OutputOrder} {l r l' r' : JoinFile} {e : OutEvent}
    {evs : List OutEvent} (hinv : C4Inv l r evs) (hpf : r.printed = false)
    (h : do_output ord l r false true = some (l', r', e)) : C4Inv l' r' (evs ++ [e]) := by
  obtain ⟨hil, hir, hul, hur, hnl, hnr⟩ := hinv
  obtain ⟨hle, hre, hepl, hepr, -, -, -, hridx⟩ := do_output_shape h
  subst hle
  subst hre
  have hflag : (e.pl && !e.pr) = false := by rw [hepl]; rfl
  have hflag' : (!e.pl && e.pr) = true := by rw [hepl, hepr]; rfl
  refine ⟨hil, hir, ?_, ?_, ?_, ?_⟩
  · intro e' he' hpl hprr
    rcases List.mem_append.mp he' with hm | hm
    · exact hul e' hm hpl hprr
    · rw [List.mem_singleton] at hm
      subst hm
      rw [hepr] at hprr
      cases hprr
  · intro e' he' hpl hprr
    rcases List.mem_append.mp he' with hm | hm
    · rcases hur e' hm hpl hprr with hx | hx
      · exact Or.inl hx
      · exact Or.inr ⟨hx.1, rfl⟩
    · rw [List.mem_singleton] at hm
      subst hm
      exact Or.inr ⟨hridx, rfl⟩
  · rw [unmatchedLeftIdxs_append, hflag]
    simpa using hnl
  · rw [unmatchedRightIdxs_append, hflag', if_pos rfl, List.nodup_append]
    refine ⟨hnr, List.nodup_singleton _, ?_⟩
    intro x hxm hxs
    rw [List.mem_singleton] at hxs
    subst hxs
    obtain ⟨e', he', hpl', hpr', hidx'⟩ := unmatchedRightIdxs_mem hxm
    rcases hur e' he' hpl' hpr' with hx | hx
    · rw [hidx', hridx] at hx
      exact lt_irrefl _ hx
    · rw [hpf] at hx
      cases hx.2

/-- A loop iteration keeps the joint invariant. -/
lemma C4Inv_joinStep {ord : OutputOrder} {l r l2 r2 : JoinFile} {es : List OutEvent}
    {todo : Bool} {evs : List OutEvent} (hinv : C4Inv l r evs)
    (h : joinStep ord l r = some (l2, r2, es, todo)) : C4Inv l2 r2 (evs ++ es) := by
  unfold joinStep at h
  rw [Option.bind_eq_some] at h
  obtain ⟨lk, hlk, h⟩ := h
  rw [Option.bind_eq_some] at h
  obtain ⟨rk, hrk, h⟩ := h
  rw [Option.bind_eq_some] at h
  obtain ⟨o, hcmp, h⟩ := h
  cases o with
  | eq =>
    rw [Option.bind_eq_some] at h
    obtain ⟨⟨lp, rp, e⟩, hdo, h⟩ := h
    rw [Option.map_eq_some'] at h
    obtain ⟨⟨la, ra, td⟩, hsr, heq⟩ := h
    cases heq
    exact C4Inv_smart_refill (C4Inv_do_output_tt hinv hdo) hsr
  | lt =>
    rw [Option.bind_eq_some] at h
    obtain ⟨⟨lp, rp, es'⟩, hz, h⟩ := h
    rw [Option.map_eq_some'] at h
    obtain ⟨⟨la, td⟩, hrf, heq⟩ := h
    cases heq
    split at hz
    · next hguard =>
      rw [Option.map_eq_some'] at hz
      obtain ⟨⟨lq, rq, e⟩, hdo, heq2⟩ := hz
      cases heq2
      rw [Bool.and_eq_true, Bool.not_eq_true'] at hguard
      exact C4Inv_refill_left (C4Inv_do_output_tf hinv hguard.2 hdo) hrf
    · cases hz
      rw [List.append_nil]
      exact C4Inv_refill_left hinv hrf
  | gt =>
    rw [Option.bind_eq_some] at h
    obtain ⟨⟨lp, rp, es'⟩, hz, h⟩ := h
    rw [Option.map_eq_some'] at h
    obtain ⟨⟨ra, td⟩, hrf, heq⟩ := h
    cases heq
    split at hz
    · next hguard =>
      rw [Option.map_eq_some'] at hz
      obtain ⟨⟨lq, rq, e⟩, hdo, heq2⟩ := hz
      cases heq2
      rw [Bool.and_eq_true, Bool.not_eq_true'] at hguard
      exact C4Inv_refill_right (C4Inv_do_output_ft hinv hguard.2 hdo) hrf
    · cases hz
      rw [List.append_nil]
      exact C4Inv_refill_right hinv hrf

/-- The merge loop keeps the joint invariant. -/
lemma C4Inv_joinLoop {ord : OutputOrder} :
    ∀ {fuel : Nat} {l r l2 r2 : JoinFile} {evs evs' : List OutEvent},
    joinLoop ord fuel l r = some (l2, r2, evs') → C4Inv l r evs →
    C4Inv l2 r2 (evs ++ evs') := by
  intro fuel
  induction fuel with
  | zero => intro l r l2 r2 evs evs' h; cases h
  | succ fuel ih =>
    intro l r l2 r2 evs evs' h hinv
    unfold joinLoop at h
    rw [Option.bind_eq_some] at h
    obtain ⟨⟨l', r', es, todo⟩, hstep, h⟩ := h
    have hinv' := C4Inv_joinStep hinv hstep
    cases todo with
    | true =>
      rw [Option.map_eq_some'] at h
      obtain ⟨⟨a, b, evs2⟩, hloop, heq⟩ := h
      cases heq
      have := ih hloop hinv'
      rwa [List.append_assoc] at this
    | false =>
      cases h
      exact hinv'

/-- The left drain loop keeps the joint invariant. -/
lemma C4Inv_drainLeft {ord : OutputOrder} :
    ∀ {fuel : Nat} {l r l2 r2 : JoinFile} {evs evs' : List OutEvent},
    drainLeft ord fuel l r evs = some (l2, r2, evs') → C4Inv l r evs →
    C4Inv l2 r2 evs' := by
  intro fuel
  induction fuel with
  | zero => intro l r l2 r2 evs evs' h; cases h
  | succ fuel ih =>
    intro l r l2 r2 evs evs' h hinv
    unfold drainLeft at h
    rw [Option.bind_eq_some] at h
    obtain ⟨⟨l', b⟩, hrf, h⟩ := h
    cases b with
    | true =>
      rw [Option.bind_eq_some] at h
      obtain ⟨⟨la, ra, e⟩, hdo, h⟩ := h
      have hinv1 := C4Inv_refill_left hinv hrf
        -- the freshly rotated record has a clear printed flag
      have hpf : l'.printed = false := by
        rcases refill_shape hrf with ⟨-, -, hb⟩ | ⟨-, -, -, -, -, hpr, -⟩
        · cases hb
        · exact hpr
      exact ih h (C4Inv_do_output_tf hinv1 hpf hdo)
    | false =>
      cases h
      exact C4Inv_refill_left hinv hrf

/-- The right drain loop keeps the joint invariant. -/
lemma C4Inv_drainRight {ord : OutputOrder} :
    ∀ {fuel : Nat} {l r l2 r2 : JoinFile} {evs evs' : List OutEvent},
    drainRight ord fuel l r evs = some (l2, r2, evs') → C4Inv l r evs →
    C4Inv l2 r2 evs' := by
  intro fuel
  induction fuel with
  | zero => intro l r l2 r2 evs evs' h; cases h
  | succ fuel ih =>
    intro l r l2 r2 evs evs' h hinv
    unfold drainRight at h
    rw [Option.bind_eq_some] at h
    obtain ⟨⟨r', b⟩, hrf, h⟩ := h
    cases b with
    | true =>
      rw [Option.bind_eq_some] at h
      obtain ⟨⟨la, ra, e⟩, hdo, h⟩ := h
      have hinv1 := C4Inv_refill_right hinv hrf
      have hpf : r'.printed = false := by
        rcases refill_shape hrf with ⟨-, -, hb⟩ | ⟨-, -, -, -, -, hpr, -⟩
        · cases hb
        · exact hpr
      exact ih h (C4Inv_do_output_ft hinv1 hpf hdo)
    | false =>
      cases h
      exact C4Inv_refill_right hinv hrf

/-- The flush phase keeps the joint invariant. -/
lemma C4Inv_joinFlush {ord : OutputOrder} {fuel : Nat} {l r l2 r2 : JoinFile}
    {evs evs' : List OutEvent} (h : joinFlush ord fuel l r evs = some (l2, r2, evs'))
    (hinv : C4Inv l r evs) : C4Inv l2 r2 evs' := by
  unfold joinFlush at h
  rw [Option.bind_eq_some] at h
  obtain ⟨⟨la, ra, evsa⟩, ha, h⟩ := h
  rw [Option.bind_eq_some] at h
  obtain ⟨⟨lc, rc, evsc⟩, hc, h⟩ := h
  have hinva : C4Inv la ra evsa := by
    split at ha
    · next hguard =>
      rw [Option.map_eq_some'] at ha
      obtain ⟨⟨lx, rx, ex⟩, hdo, heq⟩ := ha
      cases heq
      rw [Bool.and_eq_true, Bool.not_eq_true'] at hguard
      exact C4Inv_do_output_tf hinv hguard.2 hdo
    · cases ha
      exact hinv
  have hinvc : C4Inv lc rc evsc := by
    split at hc
    · next hguard =>
      rw [Option.map_eq_some'] at hc
      obtain ⟨⟨lx, rx, ex⟩, hdo, heq⟩ := hc
      cases heq
      rw [Bool.and_eq_true, Bool.not_eq_true'] at hguard
      exact C4Inv_do_output_ft hinva hguard.2 hdo
    · cases hc
      exact hinva
  dsimp only at h
  by_cases h1 : (!lc.eof && lc.config.all) = true
  · rw [if_pos h1] at h
    exact C4Inv_drainLeft h hinvc
  · rw [if_neg h1] at h
    by_cases h2 : (!rc.eof && rc.config.all) = true
    · rw [if_pos h2] at h
      exact C4Inv_drainRight h hinvc
    · rw [if_neg h2] at h
      cases h
      exact hinvc

/-! # Claim theorems -/

/-- C1 counterexample: the claim promises n×m matched rows for n left and
m right records sharing one key.  On two sorted inputs with two records
each, all four sharing the key `k`, the merge loop emits exactly 2 matched
rows, not 2×2 = 4: after the first match both lookahead keys equal `k`, so
both cursors advance and the cross pairs (l1,r2), (l2,r1) are never
formed. -/
theorem C1_counterexample :
    (runPrimed ordKey cfgInner cfgInner [0] [0]
        [str "k\ta1", str "k\ta2"] [str "k\tb1", str "k\tb2"] 20).map
      (fun evs => (evs.filter fun e => e.pl && e.pr).length) = some 2 ∧ 2 ≠ 2 * 2 :=
  ⟨by decide, by decide⟩

/-- C1 (amended): matched emission is sound — under a uniform key arity,
every matched row the merge loop and flush emit pairs a left and a right
record whose composite key values are defined and equal — but it is not
complete: duplicate keys on both sides fan out to max(n, m) matched rows,
not n×m (see the counterexample). -/
theorem C1_matched_rows_sound {ord : OutputOrder} {fuel k : Nat} {l r : JoinFile}
    {evs : List OutEvent} (h : joinRun ord fuel l r = some evs)
    (hl : UniformArity l k) (hr : UniformArity r k) :
    ∀ e ∈ evs, e.pl = true → e.pr = true →
      ∃ ks, e.lrow.keys = some ks ∧ e.rrow.keys = some ks := by
  unfold joinRun at h
  rw [Option.bind_eq_some] at h
  obtain ⟨⟨l1, r1, evs1⟩, hloop, h⟩ := h
  rw [Option.map_eq_some'] at h
  obtain ⟨⟨l2, r2, evs2⟩, hflush, heq⟩ := h
  dsimp only at heq
  subst heq
  intro e he hpl hpr
  rcases joinFlush_events hflush e he with hm | hf | hf
  · exact (joinLoop_arity_sound hloop hl hr).2.2 e hm hpl hpr
  · rw [hpl] at hf
    cases hf
  · rw [hpr] at hf
    cases hf

/-- C1 witness: the soundness theorem applied to the primed one-record
cursors `a<TAB>x` / `a<TAB>y`, whose run emits the single matched event
`wEvent`. -/
theorem C1_matched_rows_sound_witness :
    ∃ ks, wEvent.lrow.keys = some ks ∧ wEvent.rrow.keys = some ks :=
  C1_matched_rows_sound
    (show joinRun ordKey 10 wFileL wFileR = some [wEvent] by decide)
    (show UniformArity wFileL 1 from ⟨rfl, rfl, rfl⟩)
    (show UniformArity wFileR 1 from ⟨rfl, rfl, rfl⟩)
    wEvent (List.mem_singleton.mpr rfl) rfl rfl

/-- C2: on the spec's worked example the program emits nothing at all —
`JoinFile::new` builds its placeholder rows with an empty key-field list,
which `SplitLine::new` rejects (`panic!("key_fields must have more than
zero keys")`), so `join` aborts while constructing the cursors, before
reading any input. -/
theorem C2_program_panics :
    joinProgram { left := cfgOuter, right := cfgInner, output := ordKeyF1F2 }
      [str "1\tA", str "2\tB", str "2\tC"] [str "2\tX", str "3\tY"] 20 = none := rfl

/-- The merge loop itself, primed with the configured key field as lines
229-273 are written to be, does emit exactly the three rows the spec's
example expects, in order — `("1","A","-")`, `("2","B","X")`,
`("2","C","X")` — and nothing else, so the right record `3<TAB>Y` produces
no output.  (The construction defect above keeps the real program from
ever reaching this loop.) -/
theorem joinLoop_intended_c2_example :
    (runPrimed ordKeyF1F2 cfgOuter cfgInner [0] [0]
        [str "1\tA", str "2\tB", str "2\tC"] [str "2\tX", str "3\tY"] 20).map
      (List.map fun e => (e.vals, e.pl, e.pr)) =
    some [([str "1", str "A", str "-"], true, false),
          ([str "2", str "B", str "X"], true, true),
          ([str "2", str "C", str "X"], true, true)] := by decide

/-- C3: after a matched emission the advance decision reads the lookahead
records: an exhausted side makes the other advance; otherwise the lookahead
keys are compared — equal advances both (the left refill's failure would
skip the right one), a smaller left lookahead advances only the left, and
otherwise only the right advances. -/
theorem C3_advance_policy (l r : JoinFile) :
    (l.eof = true →
      smart_refill l r = (refill r).map fun q => (l, q.1, q.2)) ∧
    (l.eof = false → r.eof = true →
      smart_refill l r = (refill l).map fun p => (p.1, r, p.2)) ∧
    (l.eof = false → r.eof = false →
      ∀ lk rk, l.next_row.keys = some lk → r.next_row.keys = some rk →
        (compare_keys lk rk = some Ordering.eq →
          smart_refill l r = (refill l).bind fun p =>
            if p.2 then (refill r).map fun q => (p.1, q.1, q.2)
            else some (p.1, r, false)) ∧
        (compare_keys lk rk = some Ordering.lt →
          smart_refill l r = (refill l).map fun p => (p.1, r, p.2)) ∧
        (compare_keys lk rk = some Ordering.gt →
          smart_refill l r = (refill r).map fun q => (l, q.1, q.2))) := by
  refine ⟨?_, ?_, ?_⟩
  · intro hle
    unfold smart_refill
    rw [if_pos hle]
  · intro hle hre
    unfold smart_refill
    rw [if_neg (by simp [hle]), if_pos hre]
  · intro hle hre lk rk hlk hrk
    have hbase : smart_refill l r =
        (compare_keys lk rk).bind fun o =>
          match o with
          | Ordering.eq =>
            (refill l).bind fun p =>
              match p with
              | (l', true) =>
                (refill r).map fun q =>
                  match q with
                  | (r', br) => (l', r', br)
              | (l', false) => some (l', r, false)
          | Ordering.lt =>
            (refill l).map fun p =>
              match p with
              | (l', b) => (l', r, b)
          | Ordering.gt =>
            (refill r).map fun q =>
              match q with
              | (r', b) => (l, r', b) := by
      unfold smart_refill
      rw [if_neg (by simp [hle]), if_neg (by simp [hre]), hlk, Option.some_bind,
        hrk, Option.some_bind]
    refine ⟨?_, ?_, ?_⟩
    · intro hcmp
      rw [hbase, hcmp, Option.some_bind]
      cases hrl : refill l with
      | none => rfl
      | some p =>
        cases p with
        | mk l' bl =>
          cases bl with
          | true =>
            rw [Option.some_bind, Option.some_bind]
            dsimp only
            rw [if_pos rfl]
          | false =>
            rw [Option.some_bind, Option.some_bind]
            dsimp only
            rw [if_neg (by decide)]
    · intro hcmp
      rw [hbase, hcmp, Option.some_bind]
    · intro hcmp
      rw [hbase, hcmp, Option.some_bind]

/-- C3 witness: the advance policy applied to two concrete cursor pairs —
a smaller left lookahead (`b` vs `c`) advances only the left cursor, and
an exhausted left cursor advances the right one. -/
theorem C3_advance_policy_witness :
    (smart_refill wFileA wFileB = (refill wFileA).map fun p => (p.1, wFileB, p.2)) ∧
    (smart_refill wFileL wFileR = (refill wFileR).map fun q => (wFileL, q.1, q.2)) :=
  ⟨((C3_advance_policy wFileA wFileB).2.2 rfl rfl [str "b"] [str "c"]
      (by decide) (by decide)).2.1 (by decide),
   (C3_advance_policy wFileL wFileR).1 rfl⟩

/-- C4 counterexample: the claim's headline — no input record is ever
emitted twice — fails at a duplicate-key fan-out: joining left `1<TAB>A`
against right `1<TAB>X`, `1<TAB>Y` emits two matched rows, and the single
left record (ghost identity 1) is present in both. -/
theorem C4_counterexample :
    (runPrimed ordKey cfgInner cfgInner [0] [0]
        [str "1\tA"] [str "1\tX", str "1\tY"] 20).map
      (fun evs => evs.map fun e => (e.pl, e.lidx)) =
    some [(true, 1), (true, 1)] := by decide

/-- C4 (amended): a record is never emitted *unmatched* twice — over any
completed run of the merge loop and flush, the unmatched emissions of each
side carry pairwise distinct record identities (in particular a record
emitted unmatched during the loop is not re-emitted at the flush) — while
a record may appear in several *matched* rows, whose emission site does
not consult the printed flag. -/
theorem C4_unmatched_emitted_once {ord : OutputOrder} {fuel : Nat} {l r : JoinFile}
    {evs : List OutEvent} (h : joinRun ord fuel l r = some evs)
    (hl : IdxInv l) (hr : IdxInv r) :
    (unmatchedLeftIdxs evs).Nodup ∧ (unmatchedRightIdxs evs).Nodup := by
  unfold joinRun at h
  rw [Option.bind_eq_some] at h
  obtain ⟨⟨l1, r1, evs1⟩, hloop, h⟩ := h
  rw [Option.map_eq_some'] at h
  obtain ⟨⟨l2, r2, evs2⟩, hflush, heq⟩ := h
  dsimp only at heq
  subst heq
  have hinv0 : C4Inv l r [] := by
    refine ⟨hl, hr, ?_, ?_, List.nodup_nil, List.nodup_nil⟩
    · intro e he
      cases he
    · intro e he
      cases he
  have h1 := C4Inv_joinLoop hloop hinv0
  rw [List.nil_append] at h1
  have h2 := C4Inv_joinFlush hflush h1
  exact ⟨h2.2.2.2.2.1, h2.2.2.2.2.2⟩

/-- C4 witness: the de-duplication theorem applied to the run of outer
left `1<TAB>A` against inner right `2<TAB>X`, which emits exactly the
unmatched-left event `wEventU`. -/
theorem C4_unmatched_emitted_once_witness :
    (unmatchedLeftIdxs [wEventU]).Nodup ∧ (unmatchedRightIdxs [wEventU]).Nodup :=
  C4_unmatched_emitted_once
    (show joinRun ordKey 10 wFileLU wFileRU = some [wEventU] by decide)
    (fun hc => absurd hc (by decide)) (fun hc => absurd hc (by decide))

/-- C5 counterexample: a strict prefix does compare `Equal` — the
comparison loop only runs over the left list's indices, so the shorter
left key list `["a"]` is reported equal to the longer `["a", "b"]`. -/
theorem C5_counterexample :
    compare_keys [str "a"] [str "a", str "b"] = some Ordering.eq ∧
    [str "a"] ≠ [str "a", str "b"] :=
  ⟨by decide, by decide⟩

/-- C5 (amended): composite key comparison is pairwise in order with the
first non-equal pair deciding; it reports `Equal` exactly when the left
list is a (not necessarily proper) prefix of the right one — so a shorter
left list *can* compare equal to a longer right one — and it panics
exactly when the right list runs out first with all compared pairs
equal. -/
theorem C5_compare_keys_characterization :
    (∀ (x y : Str) (l r : List Str),
      compare_keys (x :: l) (y :: r) =
        (match cmpStr x y with
         | Ordering.eq => compare_keys l r
         | o => some o)) ∧
    (∀ l r : List Str,
      compare_keys l r = some Ordering.eq ↔ l = r.take l.length) ∧
    (∀ l r : List Str,
      compare_keys l r = none ↔ r.length < l.length ∧ r = l.take r.length) :=
  ⟨fun _ _ _ _ => rfl, compare_keys_eq_iff, compare_keys_none_iff⟩

/-- C6: splitting an empty line yields one empty field, not zero fields —
`"".split(d)` is `[""]` in Rust, so `num_fields` is 1 for every delimiter,
contradicting the claim (and the repo's own `empty` unit test, which
asserts 0). -/
theorem C6_empty_line_one_field :
    ∀ d : Char, (SplitLine.new [] d [0]).map SplitLine.num_fields = some 1 :=
  fun _ => rfl

/-- C7: for a file-field descriptor `(F, I)` the projector emits the
field's value when side F is present and `I` is below its current field
count, the empty string when side F is present and `I` is out of range,
and side F's configured missing placeholder when side F is absent. -/
theorem C7_file_field_projection :
    ∀ (l r : JoinFile) (pl pr : Bool) (i : Nat) (rest : List OutputField) (ks : List Str),
      (outputValsExplicit l r pl pr (OutputField.FileField 1 i :: rest) ks =
        (outputValsExplicit l r pl pr rest ks).map fun vs =>
          (if pl then (if i < l.row.num_fields then l.row.field i else [])
           else l.config.missing) :: vs) ∧
      (outputValsExplicit l r pl pr (OutputField.FileField 2 i :: rest) ks =
        (outputValsExplicit l r pl pr rest ks).map fun vs =>
          (if pr then (if i < r.row.num_fields then r.row.field i else [])
           else r.config.missing) :: vs) := by
  intro l r pl pr i rest ks
  constructor
  · cases pl <;> simp [outputValsExplicit]
  · cases pr <;> simp [outputValsExplicit]

/-- C8: the auto projection does not exclude the key fields — at the
program point where it is expanded (lib.rs 170-183) both rows still carry
the empty key-field list that `JoinFile::new` gave them (`f.key_fields` is
populated only later, at lib.rs 220, and the rows were parsed before
that), so for two 2-field files with key field 0 the expansion lists every
field of both files, key included; the exclusion filter itself is correct
and would produce the claimed list had it been given the configured key
lists. -/
theorem C8_auto_includes_keys :
    autoExpand 2 ([] : List Nat) 2 ([] : List Nat) =
      [OutputField.JoinField, OutputField.FileField 1 0, OutputField.FileField 1 1,
       OutputField.FileField 2 0, OutputField.FileField 2 1] ∧
    autoExpand 2 [0] 2 [0] =
      [OutputField.JoinField, OutputField.FileField 1 1, OutputField.FileField 2 1] :=
  ⟨by decide, by decide⟩

/-- C9: the record constructor rejects an empty key-field list, and the
cursor constructor builds both of its placeholder records with exactly
such a list — so `JoinFile::new` never completes normally, for any
configuration and any input. -/
theorem C9_construction_never_completes :
    (∀ (line : Str) (d : Char), SplitLine.new line d [] = none) ∧
    (∀ (cfg : JoinFileConfig) (input : List Str), JoinFile.new cfg input = none) :=
  ⟨fun _ _ => rfl, fun _ _ => rfl⟩

/-- C10: duplicating a field view is observationally transparent — the
clone has the same field count, the same value at every valid field index,
the same key values, and the same non-key fields. -/
theorem C10_clone_observational (s : SplitLine) :
    s.clone.num_fields = s.num_fields ∧
    (∀ i : Nat, i < s.num_fields → s.clone.field i = s.field i) ∧
    s.clone.keys = s.keys ∧
    s.clone.fields_except_keys = s.fields_except_keys := by
  rw [SplitLine.clone_eq]
  exact ⟨rfl, fun _ _ => rfl, rfl, rfl⟩

/-- C10 witness: the clone theorem applied to a concrete two-field view
at its in-range index 1. -/
theorem C10_clone_observational_witness :
    wSplit.clone.num_fields = wSplit.num_fields ∧
    wSplit.clone.field 1 = wSplit.field 1 :=
  ⟨(C10_clone_observational wSplit).1,
   (C10_clone_observational wSplit).2.1 1 (by decide)⟩
